import Mathlib

/-!
Verification of the PiCam_BoxDetector frame-analysis core.

Shallow embedding of:
  * the Presence Stabilizer state machine of `scripts/box_stream.py`
    (`mjpeg_generator`, warm-up + hysteresis block, lines 251-267);
  * the per-frame exception handling of the same loop (lines 242-314);
  * the geometry-filter loop of `find_boxes` (lines 174-223);
  * the letterbox forward/inverse coordinate maps and the greedy
    non-max suppression of `scripts/box_stream_yolo.py`
    (`letterbox`, `nms`, `YOLOv8ONNX.infer`);
  * the producer/consumer frame hand-off of `scripts/box_stream_yolo.py`
    (`mjpeg_generator` and `DetectorThread`).

Machine integers of the source are modelled as `Nat`/`Int`; Python floats
are modelled as `ℚ` (the properties verified here are order/field facts
that hold for the exact values the source computes).
-/

namespace PiCamBox

/- ===================================================================
   Presence Stabilizer — scripts/box_stream.py, mjpeg_generator.
   Python state: present : bool, hits, misses, frame_i : int.
   =================================================================== -/

/-- State of the warm-up + hysteresis block of `mjpeg_generator`
(`present`, `hits`, `misses`, `frame_i` in `box_stream.py`). -/
structure StabState where
  present : Bool
  hits : ℕ
  misses : ℕ
  frame_i : ℕ
deriving DecidableEq, Repr

/-- Initial stabilizer state (`present = False; hits = 0; misses = 0; frame_i = 0`). -/
def stabInit : StabState := ⟨false, 0, 0, 0⟩

/-- One frame of the warm-up + hysteresis block (`box_stream.py` lines 251-267)
with `T = HIT_THRESHOLD`, `M = MISS_THRESHOLD`, `W = STARTUP_WARMUP_FRAMES`
and raw detection count `c`. The Python (`frame_i` is incremented first,
so every field below reads the incremented value):

    frame_i += 1
    if frame_i <= STARTUP_WARMUP_FRAMES: hits = 0; misses = 0; present = False
    elif raw_count > 0:
        hits += 1; misses = 0
        if not present and hits >= HIT_THRESHOLD: present = True
    else:
        misses += 1; hits = 0
        if present and misses >= MISS_THRESHOLD: present = False
-/
def stabStep (T M W : ℕ) (s : StabState) (c : ℕ) : StabState :=
  if s.frame_i + 1 ≤ W then ⟨false, 0, 0, s.frame_i + 1⟩
  else if 0 < c then
    ⟨if s.present = false ∧ T ≤ s.hits + 1 then true else s.present,
      s.hits + 1, 0, s.frame_i + 1⟩
  else
    ⟨if s.present = true ∧ M ≤ s.misses + 1 then false else s.present,
      0, s.misses + 1, s.frame_i + 1⟩

/-- Run the stabilizer from the initial state over a list of raw per-frame counts. -/
def stabRun (T M W : ℕ) (cs : List ℕ) : StabState :=
  cs.foldl (stabStep T M W) stabInit

/-- Presence value emitted for each analyzed frame (the `present` flag
read by the overlay right after the hysteresis block). -/
def stabTrace (T M W : ℕ) : StabState → List ℕ → List Bool
  | _, [] => []
  | s, c :: cs =>
    let s' := stabStep T M W s c
    s'.present :: stabTrace T M W s' cs

/-- One iteration of the `while True` loop of `mjpeg_generator` as seen by the
stabilizer state: `some c` is a frame whose detection pass returned raw count
`c`; `none` is a frame on which the detection pass raised an exception, in
which case control jumps to the `except` branch (log, sleep, `continue`) and
none of `frame_i`, `hits`, `misses`, `present` is written. -/
def loopIter (T M W : ℕ) (s : StabState) (det : Option ℕ) : StabState :=
  match det with
  | some c => stabStep T M W s c
  | none => s

/-- The raw-count sequence of the spec's example scenario
(`HIT_THRESHOLD=3, MISS_THRESHOLD=6, WARMUP=5`). -/
def c4Counts : List ℕ := [0,0,0,0,0,1,1,1,0,0,0,0,0,0,0]

/-- Modelled from the spec: the exact presence sequence the spec lists for the
example scenario — `[Absent×5 (warmup), Absent, Absent, Present×6, Absent]`,
which is 14 values (`false` = Absent, `true` = Present). -/
def c4SpecSeq : List Bool :=
  [false, false, false, false, false, false, false,
    true, true, true, true, true, true, false]

/-- A run that ends Present: 30 warm-up frames then 4 positive frames with
the default thresholds of `box_stream.py`. -/
def c8Counts : List ℕ := List.replicate 30 0 ++ List.replicate 4 1

/- ===================================================================
   Non-max suppression — scripts/box_stream_yolo.py, nms (lines 83-104).
   =================================================================== -/

/-- A detection box in corner form `[x1, y1, x2, y2]` (one row of the
`boxes` array handed to `nms`). -/
structure Box where
  x1 : ℚ
  y1 : ℚ
  x2 : ℚ
  y2 : ℚ
deriving DecidableEq, Repr

instance : Inhabited Box := ⟨⟨0, 0, 0, 0⟩⟩

/-- `areas = (x2 - x1 + 1) * (y2 - y1 + 1)` in `nms`. -/
def boxArea (b : Box) : ℚ := (b.x2 - b.x1 + 1) * (b.y2 - b.y1 + 1)

/-- Clipped intersection width `w = np.maximum(0.0, xx2 - xx1 + 1)` where
`xx1 = max(x1[i], x1[j])`, `xx2 = min(x2[i], x2[j])`. -/
def interW (a b : Box) : ℚ := max 0 (min a.x2 b.x2 - max a.x1 b.x1 + 1)

/-- Clipped intersection height, as `interW` but on the y axis. -/
def interH (a b : Box) : ℚ := max 0 (min a.y2 b.y2 - max a.y1 b.y1 + 1)

/-- `iou = inter / (areas[i] + areas[j] - inter + 1e-7)` in `nms`,
with `inter = w * h`. -/
def iou (a b : Box) : ℚ :=
  interW a b * interH a b /
    (boxArea a + boxArea b - interW a b * interH a b + 1 / 10000000)

/-- Insert an (index, score) pair into a list sorted by descending score. -/
def insertDesc (p : ℕ × ℚ) : List (ℕ × ℚ) → List (ℕ × ℚ)
  | [] => [p]
  | q :: qs => if q.2 < p.2 then p :: q :: qs else q :: insertDesc p qs

/-- Insertion sort by descending score. -/
def sortDesc : List (ℕ × ℚ) → List (ℕ × ℚ)
  | [] => []
  | p :: ps => insertDesc p (sortDesc ps)

/-- `order = scores.argsort()[::-1]` — the box indices sorted by descending
score (numpy's default quicksort leaves the relative order of tied scores
unspecified; this sort picks one such order). -/
def argsortDesc (scores : List ℚ) : List ℕ :=
  (sortDesc scores.enum).map Prod.fst

/-- The greedy `while order.size > 0` loop of `nms`: keep the first index of
`order`, drop every later index whose IoU with it exceeds `iou_thresh`
(`inds = np.where(iou <= iou_thresh)[0]; order = order[inds + 1]`), and
recurse on what is left. `fuel` bounds the number of iterations; every
iteration consumes at least one element of `order`, so `order.length` fuel
makes the bound inexhaustible. -/
def nmsGo (bs : List Box) (τ : ℚ) : ℕ → List ℕ → List ℕ
  | _, [] => []
  | 0, _ :: _ => []
  | fuel + 1, i :: rest =>
    i :: nmsGo bs τ fuel
      (rest.filter fun j => decide (iou (bs.getD i default) (bs.getD j default) ≤ τ))

/-- `nms(boxes, scores, iou_thresh)` of `box_stream_yolo.py`: the list of kept
indices (`keep`), empty when there are no boxes. -/
def nms (bs : List Box) (scores : List ℚ) (τ : ℚ) : List ℕ :=
  if bs.length = 0 then [] else nmsGo bs τ scores.length (argsortDesc scores)

/-- Two disjoint boxes used to witness the NMS invariant on a concrete input. -/
def nmsBoxA : Box := ⟨0, 0, 10, 10⟩

/-- Second witness box, far away from `nmsBoxA`. -/
def nmsBoxB : Box := ⟨100, 100, 110, 110⟩

/- ===================================================================
   Letterbox — scripts/box_stream_yolo.py, letterbox (lines 69-78) and
   the coordinate inversion in YOLOv8ONNX.infer (lines 174-182).
   =================================================================== -/

/-- `np.clip(v, lo, hi)` for `lo ≤ hi`: clamp `v` into `[lo, hi]`. -/
def clampQ (v lo hi : ℚ) : ℚ := min (max v lo) hi

/-- `scale = min(new_size / h, new_size / w)` in `letterbox`. -/
def letterboxScale (S h w : ℚ) : ℚ := min (S / h) (S / w)

/-- Python's `round` (banker's rounding): exact halves go to the nearest even
integer, every other value to the nearest integer. -/
def pyround (q : ℚ) : ℤ :=
  if q - ⌊q⌋ = 1 / 2 then (if 2 ∣ ⌊q⌋ then ⌊q⌋ else ⌊q⌋ + 1) else round q

/-- `nh = int(round(h * scale))` in `letterbox`. -/
def letterboxNh (S : ℤ) (h w : ℚ) : ℤ := pyround (h * letterboxScale (S : ℚ) h w)

/-- `nw = int(round(w * scale))` in `letterbox`. -/
def letterboxNw (S : ℤ) (h w : ℚ) : ℤ := pyround (w * letterboxScale (S : ℚ) h w)

/-- `top = (new_size - nh) // 2` (Python floor division) in `letterbox`. -/
def letterboxTop (S : ℤ) (h w : ℚ) : ℤ := (S - letterboxNh S h w).fdiv 2

/-- `left = (new_size - nw) // 2` (Python floor division) in `letterbox`. -/
def letterboxLeft (S : ℤ) (h w : ℚ) : ℤ := (S - letterboxNw S h w).fdiv 2

/-- Forward letterbox map of an x coordinate of a frame of height `h`,
width `w`: scale by `min(new_size/h, new_size/w)`, then add the horizontal
padding offset `left`. -/
def letterboxFwdX (S : ℤ) (h w x : ℚ) : ℚ :=
  x * letterboxScale (S : ℚ) h w + (letterboxLeft S h w : ℚ)

/-- Forward letterbox map of a y coordinate: scale, then add the vertical
padding offset `top`. -/
def letterboxFwdY (S : ℤ) (h w y : ℚ) : ℚ :=
  y * letterboxScale (S : ℚ) h w + (letterboxTop S h w : ℚ)

/-- Inverse map applied to x coordinates by `YOLOv8ONNX.infer`:
`boxes[:, [0,2]] -= dx`, then `boxes /= (INFER_SIZE / max(H, W))`, then
`clip(0, W - 1)`. -/
def inferInvX (S : ℤ) (h w X : ℚ) : ℚ :=
  clampQ ((X - (letterboxLeft S h w : ℚ)) / ((S : ℚ) / max h w)) 0 (w - 1)

/-- Inverse map applied to y coordinates by `YOLOv8ONNX.infer`:
`boxes[:, [1,3]] -= dy`, divide by `INFER_SIZE / max(H, W)`, `clip(0, H - 1)`. -/
def inferInvY (S : ℤ) (h w Y : ℚ) : ℚ :=
  clampQ ((Y - (letterboxTop S h w : ℚ)) / ((S : ℚ) / max h w)) 0 (h - 1)

/- ===================================================================
   Inference Decoupler — scripts/box_stream_yolo.py, DetectorThread
   (lines 202-236) and the capture loop of mjpeg_generator (lines 326-330).
   =================================================================== -/

/-- `DetectorThread.submit`: `if not self.q.full(): self.q.put_nowait(bgr)` on
a capacity-1 queue — the new frame is dropped when the slot is occupied. -/
def submitSlot {α : Type} (slot : Option α) (frame : α) : Option α :=
  if slot.isSome then slot else some frame

/-- Whether the capture loop of `mjpeg_generator` in `box_stream_yolo.py`
attempts a hand-off for the i-th captured frame. The loop body is
`frame = picam.capture_array(); det_thread.submit(frame); ...`: the call to
`submit` is unconditional, so the producer attempts a hand-off on every
captured frame — there is no frame-skip guard on the producer side. -/
def producerAttemptsHandoff (_i : ℕ) : Bool := true

/-- Consumer-side state of `DetectorThread.run`: the `frame_count` counter and
the indices of those received frames on which inference actually ran. -/
structure DetState where
  fc : ℕ
  inferred : List ℕ
deriving DecidableEq, Repr

/-- One received frame in `DetectorThread.run`: `self.frame_count += 1`, then
`if self.frame_count % (FRAME_SKIP + 1) != 0: continue` (inference skipped,
`last_result` kept), otherwise inference runs on this frame. -/
def detStep (skip : ℕ) (st : DetState) (idx : ℕ) : DetState :=
  if (st.fc + 1) % (skip + 1) ≠ 0 then ⟨st.fc + 1, st.inferred⟩
  else ⟨st.fc + 1, st.inferred ++ [idx]⟩

/-- Run the detector thread over its first `n` received frames (indices
0 to n-1), starting from `frame_count = 0`. -/
def detRun (skip n : ℕ) : DetState :=
  (List.range n).foldl (detStep skip) ⟨0, []⟩

/- ===================================================================
   Geometry filter — scripts/box_stream.py, find_boxes (lines 174-223).
   =================================================================== -/

/-- Attributes of one contour as consumed by the filtering loop of
`find_boxes`: measured area (`cv2.contourArea`), vertex count and convexity
of the polygon approximation (`cv2.approxPolyDP`, `cv2.isContourConvex`),
axis-aligned bounding rectangle (`cv2.boundingRect`, integer coordinates on
the padded image), and minimum-area rotated rectangle (`cv2.minAreaRect`).
The OpenCV calls themselves are opaque inputs; what is embedded is the
loop's arithmetic and control flow over their results. -/
structure Contour where
  area : ℚ
  approxLen : ℕ
  isConvex : Bool
  bx : ℤ
  byc : ℤ
  bw : ℤ
  bh : ℤ
  rcx : ℚ
  rcy : ℚ
  rw : ℚ
  rh : ℚ
  angle : ℚ
deriving DecidableEq, Repr

/-- `PAD = 8` in `find_boxes`. -/
def PAD : ℤ := 8

/-- `aspect = max(w, h) / min(w, h)` in `find_boxes`. -/
def aspectRatio (w h : ℚ) : ℚ := max w h / min w h

/-- The convex-quad acceptance test of `find_boxes`:
`0.2 < aspect < 6.0 and rectangularity > 0.50`, with
`rectangularity = area / (w * h)` (source float constants as rationals). -/
def quadAccept (area w h : ℚ) : Bool :=
  decide (1 / 5 < aspectRatio w h) && decide (aspectRatio w h < 6) &&
    decide (1 / 2 < area / (w * h))

/-- The rotated-rectangle acceptance test of `find_boxes`:
`0.2 < aspect < 6.0 and rectangularity > 0.45`, with
`rectangularity = area / r_area`. -/
def rotAccept (area rA rw rh : ℚ) : Bool :=
  decide (1 / 5 < aspectRatio rw rh) && decide (aspectRatio rw rh < 6) &&
    decide (9 / 20 < area / rA)

/-- A rotated-rectangle candidate tracked as `best` in `find_boxes`. -/
structure RotCand where
  area : ℚ
  cx : ℚ
  cy : ℚ
  rw : ℚ
  rh : ℚ
  angle : ℚ
deriving DecidableEq, Repr

/-- Outcome of processing one contour in the loop of `find_boxes`. -/
inductive CRes
  | reject
  | quad (x y w h : ℤ)
  | rot (b : RotCand)
deriving DecidableEq, Repr

/-- Rotated-rectangle fallback for one contour (`find_boxes` lines 202-213):
reject when either side of the minimum-area rectangle is below 1 pixel or its
area is out of range, otherwise apply the rotated acceptance test and propose
the contour as a `best` candidate. -/
def rotFallback (minA maxA : ℚ) (c : Contour) : CRes :=
  if c.rw < 1 ∨ c.rh < 1 then CRes.reject
  else if c.rw * c.rh < minA ∨ maxA < c.rw * c.rh then CRes.reject
  else if rotAccept c.area (c.rw * c.rh) c.rw c.rh then
    CRes.rot ⟨c.area, c.rcx, c.rcy, c.rw, c.rh, c.angle⟩
  else CRes.reject

/-- One iteration of the contour loop of `find_boxes` (lines 180-213): area
range check, then the convex-quad attempt — a degenerate bounding box
(`h == 0 or w == 0`) rejects the contour outright (`continue`), an accepted
quad is drawn with un-padded coordinates, and a failed acceptance test falls
through to the rotated-rectangle fallback. -/
def contourStep (minA maxA : ℚ) (c : Contour) : CRes :=
  if c.area < minA ∨ maxA < c.area then CRes.reject
  else if c.approxLen = 4 ∧ c.isConvex = true then
    if c.bh = 0 ∨ c.bw = 0 then CRes.reject
    else if quadAccept c.area (c.bw : ℚ) (c.bh : ℚ) then
      CRes.quad (c.bx - PAD) (c.byc - PAD) c.bw c.bh
    else rotFallback minA maxA c
  else rotFallback minA maxA c

/-- A drawing applied to the working copy of the frame: an axis-aligned
rectangle (`cv2.rectangle`) or the best rotated rectangle
(`cv2.boxPoints` + `cv2.drawContours`, un-padded at draw time). -/
inductive Annot
  | rect (x y w h : ℤ)
  | rotbox (b : RotCand)
deriving DecidableEq, Repr

/-- Fold state across contours: drawings so far, `detections`, and `best`.
A new rotated candidate replaces `best` only when its contour area is
strictly larger (`if best is None or area > best[0]`). -/
def fbStep (minA maxA : ℚ) (st : List Annot × ℕ × Option RotCand)
    (c : Contour) : List Annot × ℕ × Option RotCand :=
  match contourStep minA maxA c with
  | CRes.reject => st
  | CRes.quad x y w h => (st.1 ++ [Annot.rect x y w h], st.2.1 + 1, st.2.2)
  | CRes.rot b =>
    match st.2.2 with
    | none => (st.1, st.2.1, some b)
    | some b0 => if b0.area < b.area then (st.1, st.2.1, some b) else st

/-- The post-loop step of `find_boxes`: if no quad was drawn and a best
rotated candidate exists, draw exactly that one and count 1 detection. -/
def fbFinish (r : List Annot × ℕ × Option RotCand) : List Annot × ℕ :=
  if r.2.1 = 0 then
    match r.2.2 with
    | some b => ([Annot.rotbox b], 1)
    | none => (r.1, 0)
  else (r.1, r.2.1)

/-- The geometry stage of `find_boxes` on a frame of width `W`, height `H`:
`min_area = (W * H) * 0.01`, `max_area = (W * H) * 0.99`, loop over the
contours, then the rotated-rectangle fallback. Returns the drawings applied
to the frame copy and the detection count. -/
def findBoxes (W H : ℕ) (cs : List Contour) : List Annot × ℕ :=
  fbFinish (cs.foldl
    (fbStep (((W : ℚ) * H) * (1 / 100)) (((W : ℚ) * H) * (99 / 100))) ([], 0, none))

/-- A contour whose convex-quad approximation has a degenerate bounding box
(`bh = 0`): used to witness that such contours are rejected outright. -/
def cDegenerate : Contour :=
  ⟨50, 4, true, 3, 3, 5, 0, 0, 0, 3, 3, 0⟩

/-- A well-formed contour with positive bounding box and rotated rectangle. -/
def cGood : Contour :=
  ⟨50, 4, true, 3, 3, 10, 5, 8, 5, 10, 5, 0⟩

/-- Characterization of a warm-up step. -/
theorem stabStep_warmup_eq (T M W : ℕ) (s : StabState) (c : ℕ)
    (h : s.frame_i + 1 ≤ W) :
    stabStep T M W s c = ⟨false, 0, 0, s.frame_i + 1⟩ := by
  unfold stabStep
  rw [if_pos h]

/-- Characterization of a post-warm-up step on a positive raw count. -/
theorem stabStep_pos_eq (T M W : ℕ) (s : StabState) (c : ℕ)
    (hw : W < s.frame_i + 1) (hc : 0 < c) :
    stabStep T M W s c =
      ⟨if s.present = false ∧ T ≤ s.hits + 1 then true else s.present,
        s.hits + 1, 0, s.frame_i + 1⟩ := by
  unfold stabStep
  rw [if_neg (Nat.not_le.mpr hw), if_pos hc]

/-- Characterization of a post-warm-up step on a zero raw count. -/
theorem stabStep_zero_eq (T M W : ℕ) (s : StabState)
    (hw : W < s.frame_i + 1) :
    stabStep T M W s 0 =
      ⟨if s.present = true ∧ M ≤ s.misses + 1 then false else s.present,
        0, s.misses + 1, s.frame_i + 1⟩ := by
  unfold stabStep
  rw [if_neg (Nat.not_le.mpr hw), if_neg (by omega : ¬ (0:ℕ) < 0)]

/-- Any property preserved by `stabStep` and true initially holds after any run. -/
theorem stabRun_inv (T M W : ℕ) (P : StabState → Prop) (h0 : P stabInit)
    (hstep : ∀ s c, P s → P (stabStep T M W s c)) (cs : List ℕ) :
    P (stabRun T M W cs) := by
  suffices h : ∀ (l : List ℕ) (s : StabState), P s → P (l.foldl (stabStep T M W) s) by
    exact h cs stabInit h0
  intro l
  induction l with
  | nil => intro s hs; exact hs
  | cons c l ih => intro s hs; exact ih _ (hstep s c hs)

/-- While the stabilizer is Absent, `hits` stays strictly below the hit
threshold (so a transition can only fire the moment `hits` first reaches it). -/
theorem stab_absent_hits_lt (T M W : ℕ) (hT : 0 < T) (cs : List ℕ) :
    (stabRun T M W cs).present = false → (stabRun T M W cs).hits < T := by
  refine stabRun_inv T M W (fun s => s.present = false → s.hits < T) (fun _ => hT) ?_ cs
  intro s c hs
  by_cases hw : s.frame_i + 1 ≤ W
  · rw [stabStep_warmup_eq T M W s c hw]
    intro _
    exact hT
  · have hw' : W < s.frame_i + 1 := Nat.lt_of_not_le hw
    by_cases hc : 0 < c
    · rw [stabStep_pos_eq T M W s c hw' hc]
      by_cases htr : s.present = false ∧ T ≤ s.hits + 1
      · rw [if_pos htr]
        intro hfalse
        exact absurd hfalse (by simp)
      · rw [if_neg htr]
        intro hpres
        have hpres' : s.present = false := hpres
        have hnle : ¬ T ≤ s.hits + 1 := fun hle => htr ⟨hpres', hle⟩
        show s.hits + 1 < T
        omega
    · have hc0 : c = 0 := Nat.eq_zero_of_not_pos hc
      subst hc0
      rw [stabStep_zero_eq T M W s hw']
      intro _
      exact hT

/-- While the stabilizer is Present, the current frame index is past warm-up. -/
theorem stab_present_past_warmup (T M W : ℕ) (cs : List ℕ) :
    (stabRun T M W cs).present = true → W < (stabRun T M W cs).frame_i := by
  refine stabRun_inv T M W (fun s => s.present = true → W < s.frame_i) (by simp [stabInit]) ?_ cs
  intro s c _hs
  by_cases hw : s.frame_i + 1 ≤ W
  · rw [stabStep_warmup_eq T M W s c hw]
    intro hfalse
    exact absurd hfalse (by simp)
  · have hw' : W < s.frame_i + 1 := Nat.lt_of_not_le hw
    by_cases hc : 0 < c
    · rw [stabStep_pos_eq T M W s c hw' hc]
      intro _
      exact hw'
    · have hc0 : c = 0 := Nat.eq_zero_of_not_pos hc
      subst hc0
      rw [stabStep_zero_eq T M W s hw']
      intro _
      exact hw'

/-- The `misses` counter never exceeds the number of frames processed, and it
counts a suffix of all-zero frames: each of the last `misses` raw counts is 0. -/
theorem stab_misses_trailing_zeros (T M W : ℕ) (cs : List ℕ) :
    (stabRun T M W cs).misses ≤ cs.length ∧
      ∀ j < (stabRun T M W cs).misses, cs.getD (cs.length - 1 - j) 1 = 0 := by
  induction cs using List.reverseRecOn with
  | nil => simp [stabRun, stabInit]
  | append_singleton cs c ih =>
    have hrun : stabRun T M W (cs ++ [c]) = stabStep T M W (stabRun T M W cs) c := by
      simp [stabRun, List.foldl_append]
    rw [hrun]
    by_cases hw : (stabRun T M W cs).frame_i + 1 ≤ W
    · rw [stabStep_warmup_eq T M W _ c hw]
      simp
    · have hw' : W < (stabRun T M W cs).frame_i + 1 := Nat.lt_of_not_le hw
      by_cases hc : 0 < c
      · rw [stabStep_pos_eq T M W _ c hw' hc]
        simp
      · have hc0 : c = 0 := Nat.eq_zero_of_not_pos hc
        subst hc0
        rw [stabStep_zero_eq T M W _ hw']
        refine ⟨by simpa using Nat.succ_le_succ ih.1, ?_⟩
        intro j hj
        rcases Nat.eq_zero_or_pos j with hj0 | hjpos
        · subst hj0
          have hidx : (cs ++ [0]).length - 1 - 0 = cs.length := by simp
          rw [hidx]
          simp [List.getD_eq_getElem?_getD]
        · obtain ⟨j', rfl⟩ := Nat.exists_eq_add_of_le hjpos
          have hj' : j' < (stabRun T M W cs).misses := by
            simp only at hj
            omega
          have hm := ih.1
          have hidx : (cs ++ [0]).length - 1 - (1 + j') = cs.length - 1 - j' := by
            simp
            omega
          rw [hidx]
          have hlt : cs.length - 1 - j' < cs.length := by omega
          have hget : (cs ++ [0]).getD (cs.length - 1 - j') 1 =
              cs.getD (cs.length - 1 - j') 1 := by
            simp [List.getD_eq_getElem?_getD, List.getElem?_append_left hlt]
          rw [hget]
          exact ih.2 j' hj'

/-- C1: on every post-warm-up frame with a positive raw count the stabilizer
increments `hits`, resets `misses` to 0, and — when the state is Absent —
transitions to Present exactly on the frame where `hits` reaches
`HIT_THRESHOLD`; moreover from any reachable Absent state `hits + 1` can never
exceed the threshold, so the transition fires on the frame where `hits` FIRST
reaches it, never earlier. -/
theorem hit_transition_exact (T M W : ℕ) (hT : 0 < T) (cs : List ℕ) (c : ℕ)
    (hc : 0 < c) (hw : W < (stabRun T M W cs).frame_i + 1) :
    (stabStep T M W (stabRun T M W cs) c).hits = (stabRun T M W cs).hits + 1 ∧
    (stabStep T M W (stabRun T M W cs) c).misses = 0 ∧
    ((stabRun T M W cs).present = false →
      ((stabStep T M W (stabRun T M W cs) c).present = true ↔
        T ≤ (stabRun T M W cs).hits + 1)) ∧
    ((stabRun T M W cs).present = false → (stabRun T M W cs).hits + 1 ≤ T) := by
  rw [stabStep_pos_eq T M W (stabRun T M W cs) c hw hc]
  refine ⟨rfl, rfl, ?_, ?_⟩
  · intro hpres
    show (if (stabRun T M W cs).present = false ∧ T ≤ (stabRun T M W cs).hits + 1
        then true else (stabRun T M W cs).present) = true ↔
      T ≤ (stabRun T M W cs).hits + 1
    by_cases htr : T ≤ (stabRun T M W cs).hits + 1
    · rw [if_pos ⟨hpres, htr⟩]
      simp [htr]
    · rw [if_neg (fun h => htr h.2), hpres]
      simp [htr]
  · intro hpres
    have hlt := stab_absent_hits_lt T M W hT cs hpres
    omega

/-- Concrete instance of C1: warm-up 2, thresholds 4/10, after counts
`[0,0,1,1]` (two warm-up frames then two positive frames). -/
theorem hit_transition_exact_witness :
    (stabStep 4 10 2 (stabRun 4 10 2 [0,0,1,1]) 1).hits =
      (stabRun 4 10 2 [0,0,1,1]).hits + 1 ∧
    (stabStep 4 10 2 (stabRun 4 10 2 [0,0,1,1]) 1).misses = 0 ∧
    ((stabRun 4 10 2 [0,0,1,1]).present = false →
      ((stabStep 4 10 2 (stabRun 4 10 2 [0,0,1,1]) 1).present = true ↔
        4 ≤ (stabRun 4 10 2 [0,0,1,1]).hits + 1)) ∧
    ((stabRun 4 10 2 [0,0,1,1]).present = false →
      (stabRun 4 10 2 [0,0,1,1]).hits + 1 ≤ 4) :=
  hit_transition_exact 4 10 2 (by decide) [0,0,1,1] 1 (by decide) (by decide)

/-- C2: on every analyzed frame whose (incremented) index `frame_i` is at most
`STARTUP_WARMUP_FRAMES`, the stabilizer forces Absent and resets both
counters to 0, regardless of the raw detection count. -/
theorem warmup_forces_absent (T M W : ℕ) (s : StabState) (c : ℕ)
    (h : s.frame_i + 1 ≤ W) :
    (stabStep T M W s c).present = false ∧ (stabStep T M W s c).hits = 0 ∧
    (stabStep T M W s c).misses = 0 := by
  rw [stabStep_warmup_eq T M W s c h]
  exact ⟨rfl, rfl, rfl⟩

/-- Concrete instance of C2: the very first frame with a large raw count is
still forced Absent under the default warm-up of 30 frames. -/
theorem warmup_forces_absent_witness :
    (stabStep 4 10 30 stabInit 7).present = false ∧
    (stabStep 4 10 30 stabInit 7).hits = 0 ∧
    (stabStep 4 10 30 stabInit 7).misses = 0 :=
  warmup_forces_absent 4 10 30 stabInit 7 (by decide)

/-- C3: on every post-warm-up zero-count frame the stabilizer increments
`misses` and resets `hits`; a Present state flips to Absent exactly when
`misses` reaches `MISS_THRESHOLD`; whenever a Present → Absent flip happens
the last `MISS_THRESHOLD` raw counts were all zero (consecutive zero-count
frames); and when `MISS_THRESHOLD > 1` a Present state reached on a positive
frame survives a single following zero-count frame. -/
theorem miss_transition_consecutive (T M W : ℕ) (cs : List ℕ) :
    (W < (stabRun T M W cs).frame_i + 1 →
      (stabStep T M W (stabRun T M W cs) 0).misses = (stabRun T M W cs).misses + 1 ∧
      (stabStep T M W (stabRun T M W cs) 0).hits = 0 ∧
      ((stabRun T M W cs).present = true →
        ((stabStep T M W (stabRun T M W cs) 0).present = false ↔
          M ≤ (stabRun T M W cs).misses + 1))) ∧
    ((stabRun T M W cs).present = true →
      (stabStep T M W (stabRun T M W cs) 0).present = false →
      M ≤ cs.length + 1 ∧ ∀ j < M, (cs ++ [0]).getD (cs.length - j) 1 = 0) ∧
    (∀ c, 0 < c → 1 < M → (stabRun T M W (cs ++ [c])).present = true →
      (stabRun T M W (cs ++ [c] ++ [0])).present = true) := by
  have hiff : W < (stabRun T M W cs).frame_i + 1 →
      (stabRun T M W cs).present = true →
      ((stabStep T M W (stabRun T M W cs) 0).present = false ↔
        M ≤ (stabRun T M W cs).misses + 1) := by
    intro hw hpres
    rw [stabStep_zero_eq T M W (stabRun T M W cs) hw]
    show (if (stabRun T M W cs).present = true ∧ M ≤ (stabRun T M W cs).misses + 1
        then false else (stabRun T M W cs).present) = false ↔
      M ≤ (stabRun T M W cs).misses + 1
    by_cases htr : M ≤ (stabRun T M W cs).misses + 1
    · rw [if_pos ⟨hpres, htr⟩]
      simp [htr]
    · rw [if_neg (fun h => htr h.2), hpres]
      simp [htr]
  refine ⟨?_, ?_, ?_⟩
  · intro hw
    rw [stabStep_zero_eq T M W (stabRun T M W cs) hw]
    exact ⟨rfl, rfl, fun hpres => by
      rw [← stabStep_zero_eq T M W (stabRun T M W cs) hw]
      exact hiff hw hpres⟩
  · intro hpres hflip
    have hw : W < (stabRun T M W cs).frame_i + 1 := by
      have := stab_present_past_warmup T M W cs hpres
      omega
    have hM : M ≤ (stabRun T M W cs).misses + 1 := (hiff hw hpres).mp hflip
    have hrun0 : stabRun T M W (cs ++ [0]) = stabStep T M W (stabRun T M W cs) 0 := by
      simp [stabRun, List.foldl_append]
    have hmiss0 : (stabRun T M W (cs ++ [0])).misses = (stabRun T M W cs).misses + 1 := by
      rw [hrun0, stabStep_zero_eq T M W (stabRun T M W cs) hw]
    have htrail := stab_misses_trailing_zeros T M W (cs ++ [0])
    constructor
    · have := htrail.1
      rw [hmiss0] at this
      simp only [List.length_append, List.length_cons, List.length_nil] at this
      omega
    · intro j hj
      have hj' : j < (stabRun T M W (cs ++ [0])).misses := by
        rw [hmiss0]
        omega
      have hg := htrail.2 j hj'
      have hidx : (cs ++ [0]).length - 1 - j = cs.length - j := by
        simp
      rwa [hidx] at hg
  · intro c hc hM hp1
    have hrun1 : stabRun T M W (cs ++ [c]) = stabStep T M W (stabRun T M W cs) c := by
      simp [stabRun, List.foldl_append]
    have hw : W < (stabRun T M W cs).frame_i + 1 := by
      by_contra hnw
      have hle : (stabRun T M W cs).frame_i + 1 ≤ W := by omega
      rw [hrun1, stabStep_warmup_eq T M W (stabRun T M W cs) c hle] at hp1
      exact absurd hp1 (by simp)
    have hs1 : stabRun T M W (cs ++ [c]) =
        ⟨if (stabRun T M W cs).present = false ∧ T ≤ (stabRun T M W cs).hits + 1
          then true else (stabRun T M W cs).present,
          (stabRun T M W cs).hits + 1, 0, (stabRun T M W cs).frame_i + 1⟩ := by
      rw [hrun1, stabStep_pos_eq T M W (stabRun T M W cs) c hw hc]
    have hw1 : W < (stabRun T M W (cs ++ [c])).frame_i + 1 := by
      rw [hs1]
      show W < (stabRun T M W cs).frame_i + 1 + 1
      omega
    have hm1 : (stabRun T M W (cs ++ [c])).misses = 0 := by
      rw [hs1]
    have hrun2 : stabRun T M W (cs ++ [c] ++ [0]) =
        stabStep T M W (stabRun T M W (cs ++ [c])) 0 := by
      simp [stabRun, List.foldl_append]
    rw [hrun2, stabStep_zero_eq T M W (stabRun T M W (cs ++ [c])) hw1]
    show (if (stabRun T M W (cs ++ [c])).present = true ∧
        M ≤ (stabRun T M W (cs ++ [c])).misses + 1
      then false else (stabRun T M W (cs ++ [c])).present) = true
    rw [if_neg (fun h => by rw [hm1] at h; omega), hp1]

/-- Concrete instance of C3: thresholds 4/10, warm-up 2; after two warm-up
frames and four positive frames the state is Present; a zero frame then
increments `misses`, clears `hits`, and does not flip the Present state
(`MISS_THRESHOLD = 10 > 1`). -/
theorem miss_transition_consecutive_witness :
    (stabStep 4 10 2 (stabRun 4 10 2 [0,0,1,1,1,1]) 0).misses =
      (stabRun 4 10 2 [0,0,1,1,1,1]).misses + 1 ∧
    (stabStep 4 10 2 (stabRun 4 10 2 [0,0,1,1,1,1]) 0).hits = 0 ∧
    (stabRun 4 10 2 ([0,0,1,1,1] ++ [1] ++ [0])).present = true :=
  ⟨((miss_transition_consecutive 4 10 2 [0,0,1,1,1,1]).1 (by decide)).1,
    ((miss_transition_consecutive 4 10 2 [0,0,1,1,1,1]).1 (by decide)).2.1,
    (miss_transition_consecutive 4 10 2 [0,0,1,1,1]).2.2 1 (by decide) (by decide)
      (by decide)⟩

/-- C4 counterexample: the stabilizer emits one presence value per input frame,
hence 15 values for the 15 raw counts, while the sequence the spec lists has
only 14 values; the produced sequence is not the spec's sequence. -/
theorem example_scenario_cex :
    stabTrace 3 6 5 stabInit c4Counts ≠ c4SpecSeq := by decide

/-- C4 amended: on the example scenario the stabilizer produces exactly the
spec's 14 listed values followed by one more Absent for the 15th frame
(the spec's list is one value short). -/
theorem example_scenario_amended :
    stabTrace 3 6 5 stabInit c4Counts = c4SpecSeq ++ [false] := by decide

set_option maxRecDepth 8000 in
/-- C8 counterexample: on a frame whose detection pass raises an exception the
loop's `except` branch skips the whole stabilizer update, so the resulting
state differs from the state a genuine zero-count frame would produce (that
one increments `misses` and `frame_i`). -/
theorem exception_not_zero_count_cex :
    loopIter 4 10 30 (stabRun 4 10 30 c8Counts) none ≠
      stabStep 4 10 30 (stabRun 4 10 30 c8Counts) 0 := by decide

/-- C8 amended: on a detection-pass exception the stream continues and the
stabilizer state (`present`, `hits`, `misses`, `frame_i`) is left entirely
unchanged — the frame is skipped, not treated as a zero-count frame, and no
error leaks into the next frame's processing. -/
theorem exception_skips_frame (T M W : ℕ) (s : StabState) :
    loopIter T M W s none = s := rfl

/-- The clipped intersection width is symmetric in its two boxes. -/
theorem interW_comm (a b : Box) : interW a b = interW b a := by
  unfold interW
  rw [min_comm a.x2 b.x2, max_comm a.x1 b.x1]

/-- The clipped intersection height is symmetric in its two boxes. -/
theorem interH_comm (a b : Box) : interH a b = interH b a := by
  unfold interH
  rw [min_comm a.y2 b.y2, max_comm a.y1 b.y1]

/-- The IoU computed by `nms` is symmetric in its two boxes. -/
theorem iou_comm (a b : Box) : iou a b = iou b a := by
  unfold iou
  rw [interW_comm a b, interH_comm a b, add_comm (boxArea a) (boxArea b)]

/-- Every index kept by the greedy loop comes from the order list it was fed. -/
theorem nmsGo_mem (bs : List Box) (τ : ℚ) :
    ∀ (fuel : ℕ) (l : List ℕ) (j : ℕ), j ∈ nmsGo bs τ fuel l → j ∈ l := by
  intro fuel
  induction fuel with
  | zero =>
    intro l j hj
    cases l with
    | nil => simp [nmsGo] at hj
    | cons i rest => simp [nmsGo] at hj
  | succ n ih =>
    intro l j hj
    cases l with
    | nil => simp [nmsGo] at hj
    | cons i rest =>
      simp only [nmsGo, List.mem_cons] at hj
      rcases hj with rfl | hj
      · exact List.mem_cons_self _ _
      · exact List.mem_cons_of_mem _ (List.mem_of_mem_filter (ih _ _ hj))

/-- The greedy loop only ever keeps an index after it survived the IoU filter
of every earlier kept index, so the kept list is pairwise within threshold. -/
theorem nmsGo_pairwise (bs : List Box) (τ : ℚ) :
    ∀ (fuel : ℕ) (l : List ℕ),
      (nmsGo bs τ fuel l).Pairwise
        (fun i j => iou (bs.getD i default) (bs.getD j default) ≤ τ) := by
  intro fuel
  induction fuel with
  | zero =>
    intro l
    cases l with
    | nil => simp [nmsGo]
    | cons i rest => simp [nmsGo]
  | succ n ih =>
    intro l
    cases l with
    | nil => simp [nmsGo]
    | cons i rest =>
      simp only [nmsGo]
      refine List.Pairwise.cons ?_ (ih _)
      intro j hj
      have hjf := nmsGo_mem bs τ n _ j hj
      have hp := List.of_mem_filter hjf
      simpa using hp

/-- C5: any two distinct boxes kept by `nms` have (as computed by the code,
with its +1 side convention and 1e-7 denominator guard) intersection-over-
union at most the configured IoU threshold, for every box list, score list
and threshold. -/
theorem nms_kept_pairwise (bs : List Box) (scores : List ℚ) (τ : ℚ) :
    ∀ i ∈ nms bs scores τ, ∀ j ∈ nms bs scores τ, i ≠ j →
      iou (bs.getD i default) (bs.getD j default) ≤ τ := by
  intro i hi j hj hne
  have hsym : Symmetric (fun i j : ℕ =>
      iou (bs.getD i default) (bs.getD j default) ≤ τ) := by
    intro a b h
    rwa [iou_comm]
  unfold nms at hi hj
  by_cases hbs : bs.length = 0
  · rw [if_pos hbs] at hi
    simp at hi
  · rw [if_neg hbs] at hi hj
    exact (nmsGo_pairwise bs τ scores.length (argsortDesc scores)).forall hsym hi hj hne

/-- The minimum of the two per-axis ratios equals the ratio for the larger
side: `min(S/h, S/w) = S / max(h, w)` for a nonnegative canvas size and
positive frame sides. -/
theorem letterboxScale_eq (S h w : ℚ) (hS : 0 ≤ S) (hh : 0 < h) (hw : 0 < w) :
    letterboxScale S h w = S / max h w := by
  unfold letterboxScale
  rcases le_total h w with hle | hle
  · rw [max_eq_right hle]
    exact min_eq_right (div_le_div_of_nonneg_left hS hh hle)
  · rw [max_eq_left hle]
    exact min_eq_left (div_le_div_of_nonneg_left hS hw hle)

/-- Scaling a coordinate, adding an offset, subtracting the offset back,
dividing by the scale and clamping moves the coordinate by at most 1. -/
theorem roundtrip_coord (s d x bound : ℚ) (hs : 0 < s) (hx0 : 0 ≤ x)
    (hxb : x ≤ bound + 1) :
    |clampQ ((x * s + d - d) / s) 0 bound - x| ≤ 1 := by
  have hxx : (x * s + d - d) / s = x := by
    field_simp
  rw [hxx]
  unfold clampQ
  rw [max_eq_left hx0]
  rcases le_total x bound with hle | hle
  · rw [min_eq_left hle]
    simp
  · rw [min_eq_right hle]
    rw [abs_le]
    constructor <;> linarith

/-- C6: for every positive square canvas size and frame dimensions, a
coordinate pair lying within the frame bounds, mapped through the forward
letterbox transform (scale by `min(S/h, S/w)`, add the centering padding
offset) and then through the inverse transform of `YOLOv8ONNX.infer`
(subtract the offset, divide by `S / max(h, w)`, clamp to the frame), lands
within one pixel of where it started. -/
theorem letterbox_roundtrip (S : ℤ) (h w : ℚ) (hS : 0 < S) (hh : 0 < h)
    (hw : 0 < w) (x y : ℚ) (hx0 : 0 ≤ x) (hxw : x ≤ w) (hy0 : 0 ≤ y)
    (hyh : y ≤ h) :
    |inferInvX S h w (letterboxFwdX S h w x) - x| ≤ 1 ∧
    |inferInvY S h w (letterboxFwdY S h w y) - y| ≤ 1 := by
  have hSq : (0 : ℚ) < (S : ℚ) := by exact_mod_cast hS
  have hscale : letterboxScale (S : ℚ) h w = (S : ℚ) / max h w :=
    letterboxScale_eq (S : ℚ) h w hSq.le hh hw
  have hspos : 0 < (S : ℚ) / max h w := div_pos hSq (lt_max_of_lt_left hh)
  constructor
  · unfold inferInvX letterboxFwdX
    rw [hscale]
    exact roundtrip_coord _ _ x (w - 1) hspos hx0 (by linarith)
  · unfold inferInvY letterboxFwdY
    rw [hscale]
    exact roundtrip_coord _ _ y (h - 1) hspos hy0 (by linarith)

/-- C7 counterexample: with the configured `FRAME_SKIP = 2` the claim says the
producer attempts hand-off only for every 3rd captured frame, so any two
distinct frames it offers would have to be at least 3 apart; but the capture
loop calls `det_thread.submit` unconditionally, offering frames 0 and 1. -/
theorem producer_handoff_cex :
    ¬ (∀ i j : ℕ, producerAttemptsHandoff i = true →
        producerAttemptsHandoff j = true → i ≠ j → 3 ≤ max i j - min i j) := by
  intro hcl
  exact absurd (hcl 0 1 rfl rfl (by decide)) (by decide)

/-- Unfolding one received frame of the detector thread. -/
theorem detRun_succ (skip n : ℕ) :
    detRun skip (n + 1) = detStep skip (detRun skip n) n := by
  unfold detRun
  rw [List.range_succ, List.foldl_append]
  rfl

/-- The detector thread's `frame_count` equals the number of frames received. -/
theorem detRun_fc (skip : ℕ) : ∀ n, (detRun skip n).fc = n := by
  intro n
  induction n with
  | zero => rfl
  | succ k ih =>
    rw [detRun_succ]
    unfold detStep
    by_cases hmod : ((detRun skip k).fc + 1) % (skip + 1) ≠ 0
    · rw [if_pos hmod]
      show (detRun skip k).fc + 1 = k + 1
      rw [ih]
    · rw [if_neg hmod]
      show (detRun skip k).fc + 1 = k + 1
      rw [ih]

/-- C7 amended: the producer attempts a hand-off on every captured frame (the
`submit` call in the capture loop is unconditional); the frame-skip factor is
applied by the consumer thread instead, which runs inference exactly on every
`(FRAME_SKIP + 1)`-th frame it receives and skips the rest. -/
theorem frame_skip_on_consumer :
    (∀ i : ℕ, producerAttemptsHandoff i = true) ∧
    (∀ skip n : ℕ, (detRun skip n).inferred =
      (List.range n).filter (fun k => decide ((k + 1) % (skip + 1) = 0))) := by
  refine ⟨fun _ => rfl, ?_⟩
  intro skip n
  induction n with
  | zero => rfl
  | succ m ih =>
    rw [detRun_succ, List.range_succ, List.filter_append]
    unfold detStep
    rw [detRun_fc skip m]
    by_cases hmod : (m + 1) % (skip + 1) = 0
    · rw [if_neg (fun hne => hne hmod)]
      show (detRun skip m).inferred ++ [m] =
        List.filter (fun k => decide ((k + 1) % (skip + 1) = 0)) (List.range m) ++
          List.filter (fun k => decide ((k + 1) % (skip + 1) = 0)) [m]
      rw [← ih]
      congr 1
      simp [hmod]
    · rw [if_pos hmod]
      show (detRun skip m).inferred =
        List.filter (fun k => decide ((k + 1) % (skip + 1) = 0)) (List.range m) ++
          List.filter (fun k => decide ((k + 1) % (skip + 1) = 0)) [m]
      rw [← ih]
      have hnil : List.filter (fun k => decide ((k + 1) % (skip + 1) = 0)) [m] = [] := by
        simp [hmod]
      rw [hnil, List.append_nil]

/-- Each contour step preserves "one drawing per counted quad detection". -/
theorem fbStep_len (minA maxA : ℚ) (st : List Annot × ℕ × Option RotCand)
    (c : Contour) (h : st.1.length = st.2.1) :
    (fbStep minA maxA st c).1.length = (fbStep minA maxA st c).2.1 := by
  unfold fbStep
  rcases hres : contourStep minA maxA c with _ | ⟨x, y, w2, h2⟩ | b
  · exact h
  · show (st.1 ++ [Annot.rect x y w2 h2]).length = st.2.1 + 1
    simp [h]
  · rcases hb : st.2.2 with _ | b0
    · exact h
    · show (if b0.area < b.area then (st.1, st.2.1, some b) else st).1.length =
        (if b0.area < b.area then (st.1, st.2.1, some b) else st).2.1
      by_cases hlt : b0.area < b.area
      · rw [if_pos hlt]
        exact h
      · rw [if_neg hlt]
        exact h

/-- Across the whole contour loop, the number of drawings equals the quad
detection count. -/
theorem fbFold_len (minA maxA : ℚ) (cs : List Contour) :
    ∀ st : List Annot × ℕ × Option RotCand, st.1.length = st.2.1 →
      (cs.foldl (fbStep minA maxA) st).1.length =
        (cs.foldl (fbStep minA maxA) st).2.1 := by
  induction cs with
  | nil => intro st h; exact h
  | cons c cs ih =>
    intro st h
    exact ih _ (fbStep_len minA maxA st c h)

/-- When `fbFinish` reports zero detections, no drawing was made. -/
theorem fbFinish_zero (r : List Annot × ℕ × Option RotCand)
    (hlen : r.1.length = r.2.1) (h0 : (fbFinish r).2 = 0) :
    (fbFinish r).1 = [] := by
  unfold fbFinish at h0 ⊢
  by_cases hc : r.2.1 = 0
  · rw [if_pos hc] at h0 ⊢
    rcases hb : r.2.2 with _ | b
    · show r.1 = []
      have hz : r.1.length = 0 := by rw [hlen, hc]
      exact List.length_eq_zero.mp hz
    · rw [hb] at h0
      simp at h0
  · rw [if_neg hc] at h0
    exact absurd h0 hc

/-- C9: if zero candidates are accepted, `find_boxes` returns count 0 with no
drawing applied to the frame copy (the copy is returned unmodified); a contour
whose convex-quad bounding box is degenerate (`w = 0 or h = 0`) is rejected
outright; and the guards in front of both geometry tests make every divisor
(`min(w, h)`, `w * h`, `min(rw, rh)`, `rw * rh`) nonzero, so no division by
zero can occur in the geometry tests. -/
theorem findBoxes_safe (W H : ℕ) (cs : List Contour) (minA maxA : ℚ) :
    ((findBoxes W H cs).2 = 0 → (findBoxes W H cs).1 = []) ∧
    (∀ c : Contour, c.approxLen = 4 → c.isConvex = true → c.bh = 0 ∨ c.bw = 0 →
      contourStep minA maxA c = CRes.reject) ∧
    (∀ c : Contour, ¬ (c.bh = 0 ∨ c.bw = 0) →
      min ((c.bw : ℚ)) ((c.bh : ℚ)) ≠ 0 ∧ ((c.bw : ℚ)) * ((c.bh : ℚ)) ≠ 0) ∧
    (∀ c : Contour, ¬ (c.rw < 1 ∨ c.rh < 1) →
      min c.rw c.rh ≠ 0 ∧ c.rw * c.rh ≠ 0) := by
  refine ⟨?_, ?_, ?_, ?_⟩
  · intro h0
    exact fbFinish_zero _ (fbFold_len _ _ cs ([], 0, none) rfl) h0
  · intro c h4 hcv hdeg
    unfold contourStep
    by_cases harea : c.area < minA ∨ maxA < c.area
    · rw [if_pos harea]
    · rw [if_neg harea, if_pos ⟨h4, hcv⟩, if_pos hdeg]
  · intro c hdeg
    push_neg at hdeg
    obtain ⟨hbh, hbw⟩ := hdeg
    constructor
    · intro hmin
      rcases min_choice ((c.bw : ℚ)) ((c.bh : ℚ)) with hch | hch <;> rw [hch] at hmin
      · exact hbw (by exact_mod_cast hmin)
      · exact hbh (by exact_mod_cast hmin)
    · intro hmul
      rcases mul_eq_zero.mp hmul with hz | hz
      · exact hbw (by exact_mod_cast hz)
      · exact hbh (by exact_mod_cast hz)
  · intro c hsm
    push_neg at hsm
    obtain ⟨hrw, hrh⟩ := hsm
    have hrw' : (0 : ℚ) < c.rw := lt_of_lt_of_le zero_lt_one hrw
    have hrh' : (0 : ℚ) < c.rh := lt_of_lt_of_le zero_lt_one hrh
    exact ⟨ne_of_gt (lt_min hrw' hrh'), ne_of_gt (mul_pos hrw' hrh')⟩

/-- C10: for positive width and height the computed aspect ratio
`max(w, h) / min(w, h)` is always at least 1, so the configured lower aspect
bound `0.2` can never cause a rejection: both the convex-quad acceptance test
and the rotated-rectangle acceptance test reduce to the upper aspect bound
plus the rectangularity test alone. -/
theorem aspect_lower_bound_redundant (w h : ℚ) (hw : 0 < w) (hh : 0 < h) :
    1 ≤ aspectRatio w h ∧
    (∀ area : ℚ, quadAccept area w h =
      (decide (aspectRatio w h < 6) && decide (1 / 2 < area / (w * h)))) ∧
    (∀ area rA : ℚ, rotAccept area rA w h =
      (decide (aspectRatio w h < 6) && decide (9 / 20 < area / rA))) := by
  have hmin : 0 < min w h := lt_min hw hh
  have h1 : 1 ≤ aspectRatio w h := by
    unfold aspectRatio
    exact (one_le_div hmin).mpr min_le_max
  have h5 : (1 : ℚ) / 5 < aspectRatio w h := lt_of_lt_of_le (by norm_num) h1
  refine ⟨h1, ?_, ?_⟩
  · intro area
    unfold quadAccept
    rw [decide_eq_true h5, Bool.true_and]
  · intro area rA
    unfold rotAccept
    rw [decide_eq_true h5, Bool.true_and]

section RatEval

attribute [local semireducible] Rat.mul Rat.add Rat.sub Rat.inv

/-- Concrete instance of C5: both disjoint boxes survive NMS at the default
threshold 0.45 and their IoU (zero) is within the threshold. -/
theorem nms_kept_pairwise_witness :
    0 ∈ nms [nmsBoxA, nmsBoxB] [9/10, 8/10] (45/100) ∧
    1 ∈ nms [nmsBoxA, nmsBoxB] [9/10, 8/10] (45/100) ∧
    iou (([nmsBoxA, nmsBoxB] : List Box).getD 0 default)
      (([nmsBoxA, nmsBoxB] : List Box).getD 1 default) ≤ 45/100 :=
  ⟨by decide, by decide,
    nms_kept_pairwise [nmsBoxA, nmsBoxB] [9/10, 8/10] (45/100)
      0 (by decide) 1 (by decide) (by decide)⟩

/-- Concrete instance of C6: a 480x640 frame, the default 640 canvas, and the
point (100, 50) round-trips within one pixel. -/
theorem letterbox_roundtrip_witness :
    |inferInvX 640 480 640 (letterboxFwdX 640 480 640 100) - 100| ≤ 1 ∧
    |inferInvY 640 480 640 (letterboxFwdY 640 480 640 50) - 50| ≤ 1 :=
  letterbox_roundtrip 640 480 640 (by decide) (by decide) (by decide) 100 50
    (by decide) (by decide) (by decide) (by decide)

/-- Concrete instance of C9: an empty candidate list yields an unmodified
frame; a contour with `bh = 0` is rejected; both divisor pairs of a
well-formed contour are nonzero. -/
theorem findBoxes_safe_witness :
    (findBoxes 100 100 ([] : List Contour)).1 = [] ∧
    contourStep 1 99 cDegenerate = CRes.reject ∧
    (min ((cGood.bw : ℚ)) ((cGood.bh : ℚ)) ≠ 0 ∧
      ((cGood.bw : ℚ)) * ((cGood.bh : ℚ)) ≠ 0) ∧
    (min cGood.rw cGood.rh ≠ 0 ∧ cGood.rw * cGood.rh ≠ 0) :=
  ⟨(findBoxes_safe 100 100 [] 1 99).1 rfl,
    (findBoxes_safe 100 100 [] 1 99).2.1 cDegenerate rfl rfl (Or.inl rfl),
    (findBoxes_safe 100 100 [] 1 99).2.2.1 cGood (by decide),
    (findBoxes_safe 100 100 [] 1 99).2.2.2 cGood (by decide)⟩

/-- Concrete instance of C10: for a 10x5 rectangle both acceptance tests lose
their lower aspect bound. -/
theorem aspect_lower_bound_redundant_witness :
    1 ≤ aspectRatio 10 5 ∧
    quadAccept 40 10 5 =
      (decide (aspectRatio 10 5 < 6) && decide ((1 : ℚ) / 2 < 40 / (10 * 5))) ∧
    rotAccept 40 50 10 5 =
      (decide (aspectRatio 10 5 < 6) && decide ((9 : ℚ) / 20 < 40 / 50)) :=
  ⟨(aspect_lower_bound_redundant 10 5 (by decide) (by decide)).1,
    (aspect_lower_bound_redundant 10 5 (by decide) (by decide)).2.1 40,
    (aspect_lower_bound_redundant 10 5 (by decide) (by decide)).2.2 40 50⟩

end RatEval

end PiCamBox
